import Mathlib

/-!
Verification of the recurrence and text-normalization engine of a
subscription-tracking bot (src/main.py) against its specification.

The Python source is shallowly embedded: calendar dates become a `Date`
structure over `Nat`, Python `date` comparison becomes lexicographic
comparison, the `while` loop of `next_from_last` becomes a fuel-indexed
recursion (the fuel is an upper bound on the number of iterations, proved
sufficient for valid calendar dates), monetary amounts become exact
decimals (an integer mantissa with a power-of-ten scale, with a rational
value function for the specification-level statements), and the
string-processing functions are modelled character by character.
-/

/-- A civil calendar date, mirroring Python `datetime.date` fields. -/
structure Date where
  year : Nat
  month : Nat
  day : Nat
deriving DecidableEq, Repr

/-- Python `calendar.isleap`. -/
def isLeapYear (y : Nat) : Bool :=
  y % 4 == 0 && (y % 100 != 0 || y % 400 == 0)

/-- `calendar.monthrange(y, m)[1]`: number of days of month `m` of year `y`. -/
def daysInMonth (y m : Nat) : Nat :=
  if m = 2 then (if isLeapYear y then 29 else 28)
  else if m = 4 ∨ m = 6 ∨ m = 9 ∨ m = 11 then 30
  else 31

/-- `clamp_day` from src/main.py: `min(max(1, wanted_day), last_day)`. -/
def clamp_day (year month wanted_day : Nat) : Nat :=
  min (max 1 wanted_day) (daysInMonth year month)

/-- `add_months` from src/main.py (the program only calls it with
nonnegative month counts, so the count is a natural number; `//` and `%`
on nonnegative operands agree with `Nat` division and remainder). -/
def add_months (d : Date) (months : Nat) : Date :=
  let y := d.year + (d.month - 1 + months) / 12
  let m := (d.month - 1 + months) % 12 + 1
  ⟨y, m, clamp_day y m d.day⟩

/-- `add_years` from src/main.py. -/
def add_years (d : Date) (years : Nat) : Date :=
  ⟨d.year + years, d.month, clamp_day (d.year + years) d.month d.day⟩

/-- Python `date` comparison `a < b` (lexicographic on year, month, day). -/
def dateLt (a b : Date) : Bool :=
  if a.year < b.year then true
  else if b.year < a.year then false
  else if a.month < b.month then true
  else if b.month < a.month then false
  else decide (a.day < b.day)

/-- Python `date` comparison `a <= b`. -/
def dateLe (a b : Date) : Bool :=
  dateLt a b || decide (a = b)

/-- One iteration of the loop body of `next_from_last`:
`if period == "year": add_years(c, 1) else: add_months(c, 1)`.
Note the source has no branch for a week period. -/
def periodStep (period : String) (c : Date) : Date :=
  if period == "year" then add_years c 1 else add_months c 1

/-- Monotone encoding of a valid date into `Nat`; used as loop measure. -/
def encodeDate (d : Date) : Nat :=
  372 * d.year + 31 * (d.month - 1) + d.day

/-- The `while candidate < today` loop of `next_from_last`, indexed by fuel.
For valid dates the fuel chosen by `next_from_last` never runs out
(`encodeDate` strictly increases on every iteration). -/
def nextFromLastGo (fuel : Nat) (c : Date) (period : String) (today : Date) : Date :=
  match fuel with
  | 0 => c
  | f + 1 => if dateLt c today then nextFromLastGo f (periodStep period c) period today else c

/-- `next_from_last` from src/main.py: advance from the last charge date
while the candidate is strictly before `today`. -/
def next_from_last (last : Date) (period : String) (today : Date) : Date :=
  nextFromLastGo (encodeDate today + 1) last period today

/-- A structurally valid calendar date (field bounds used by the proofs). -/
def validDate (d : Date) : Prop :=
  1 ≤ d.month ∧ d.month ≤ 12 ∧ 1 ≤ d.day ∧ d.day ≤ 31

instance (d : Date) : Decidable (validDate d) := by
  unfold validDate
  infer_instance

/-- Proleptic Gregorian day count before month `m` of year `y` (measure
used to state day differences; mirrors `datetime.date.toordinal`). -/
def daysBeforeMonth (y m : Nat) : Nat :=
  (List.range (m - 1)).foldl (fun acc k => acc + daysInMonth y (k + 1)) 0

/-- Number of leap years in `1..y`. -/
def leapCount (y : Nat) : Nat :=
  y / 4 - y / 100 + y / 400

/-- Proleptic Gregorian ordinal of a date (`datetime.date.toordinal`). -/
def dateOrdinal (d : Date) : Nat :=
  365 * (d.year - 1) + leapCount (d.year - 1) + daysBeforeMonth d.year d.month + d.day

/-- Python whitespace test used by `str.split()` and `str.strip()`
(space, tab, newline, carriage return, vertical tab, form feed). -/
def isWsChar (c : Char) : Bool :=
  c.toNat = 32 || c.toNat = 9 || c.toNat = 10 || c.toNat = 13 || c.toNat = 11 || c.toNat = 12

/-- `str.strip()`: drop leading and trailing whitespace. -/
def stripChars (l : List Char) : List Char :=
  ((l.dropWhile (fun c => isWsChar c)).reverse.dropWhile (fun c => isWsChar c)).reverse

def pyStrip (s : String) : String :=
  String.mk (stripChars s.data)

/-- `str.split()` with no separator: split on whitespace runs, no empties. -/
def splitWsAux : List Char → List Char → List (List Char)
  | [], acc => if acc = [] then [] else [acc.reverse]
  | c :: rest, acc =>
    if isWsChar c then
      if acc = [] then splitWsAux rest [] else acc.reverse :: splitWsAux rest []
    else splitWsAux rest (c :: acc)

def pySplitWs (s : String) : List String :=
  (splitWsAux s.data []).map String.mk

/-- `str.split(sep)` with a one-character separator (keeps empty parts). -/
def splitCharAux (sep : Char) : List Char → List Char → List (List Char)
  | [], acc => [acc.reverse]
  | c :: rest, acc =>
    if c == sep then acc.reverse :: splitCharAux sep rest []
    else splitCharAux sep rest (c :: acc)

def pySplitChar (s : String) (sep : Char) : List String :=
  (splitCharAux sep s.data []).map String.mk

/-- `str.split(sep, maxsplit)` with a one-character separator. -/
def splitCharMaxAux (sep : Char) : List Char → Nat → List Char → List (List Char)
  | [], _, acc => [acc.reverse]
  | c :: rest, k, acc =>
    if k == 0 then [acc.reverse ++ c :: rest]
    else if c == sep then acc.reverse :: splitCharMaxAux sep rest (k - 1) []
    else splitCharMaxAux sep rest k (c :: acc)

def pySplitCharMax (s : String) (sep : Char) (maxsplit : Nat) : List String :=
  (splitCharMaxAux sep s.data maxsplit []).map String.mk

/-- `str.startswith`. -/
def startsWithChars : List Char → List Char → Bool
  | _, [] => true
  | [], _ :: _ => false
  | c :: cs, p :: ps => c == p && startsWithChars cs ps

def pyStartsWith (s tag : String) : Bool :=
  startsWithChars s.data tag.data

/-- `" ".join(parts)`. -/
def joinSpaceChars : List (List Char) → List Char
  | [] => []
  | [x] => x
  | x :: y :: rest => x ++ ' ' :: joinSpaceChars (y :: rest)

def joinSpace (l : List String) : String :=
  String.mk (joinSpaceChars (l.map (fun s => s.data)))

/-- `str.lower()` on the alphabets the alias tables use (ASCII + Cyrillic). -/
def charLower (c : Char) : Char :=
  if 65 ≤ c.toNat ∧ c.toNat ≤ 90 then Char.ofNat (c.toNat + 32)
  else if 1040 ≤ c.toNat ∧ c.toNat ≤ 1071 then Char.ofNat (c.toNat + 32)
  else if c.toNat = 1025 then Char.ofNat 1105
  else c

/-- `str.upper()` on the alphabets the alias tables use (ASCII + Cyrillic). -/
def charUpper (c : Char) : Char :=
  if 97 ≤ c.toNat ∧ c.toNat ≤ 122 then Char.ofNat (c.toNat - 32)
  else if 1072 ≤ c.toNat ∧ c.toNat ≤ 1103 then Char.ofNat (c.toNat - 32)
  else if c.toNat = 1105 then Char.ofNat 1025
  else c

def pyLower (s : String) : String :=
  String.mk (s.data.map charLower)

def pyUpper (s : String) : String :=
  String.mk (s.data.map charUpper)

def isDigitChar (c : Char) : Bool :=
  48 ≤ c.toNat && c.toNat ≤ 57

def digitVal (c : Char) : Nat :=
  c.toNat - 48

/-- Numeric value of a digit string (most significant digit first). -/
def digitsVal (l : List Char) : Nat :=
  l.foldl (fun a c => 10 * a + digitVal c) 0

def digitChar (k : Nat) : Char :=
  if k = 0 then '0' else if k = 1 then '1' else if k = 2 then '2'
  else if k = 3 then '3' else if k = 4 then '4' else if k = 5 then '5'
  else if k = 6 then '6' else if k = 7 then '7' else if k = 8 then '8' else '9'

/-- Decimal digits of `n` (fuel-indexed so that it reduces in the kernel). -/
def natToCharsAux : Nat → Nat → List Char
  | 0, _ => []
  | fuel + 1, n => if n = 0 then [] else natToCharsAux fuel (n / 10) ++ [digitChar (n % 10)]

def natToChars (n : Nat) : List Char :=
  if n = 0 then ['0'] else natToCharsAux n n

/-- Idealized model of a Python float holding a decimal number: the value
is `num / 10 ^ scale`. Every float this program manipulates comes from a
decimal literal, so this exact-decimal model is faithful up to the binary
rounding that the spec's "within 2-decimal rounding" already absorbs. -/
structure PyFloat where
  num : Int
  scale : Nat
deriving DecidableEq, Repr

/-- The rational value of a modelled float (used in specifications). -/
def PyFloat.toRat (x : PyFloat) : ℚ :=
  (x.num : ℚ) / (10 : ℚ) ^ x.scale

/-- Float comparison `x <= k` against an integer bound. -/
def pfLeInt (x : PyFloat) (k : Int) : Bool :=
  decide (x.num ≤ k * (10 : Int) ^ x.scale)

/-- Float comparison `k < x` against an integer bound. -/
def pfLtOf (k : Int) (x : PyFloat) : Bool :=
  decide (k * (10 : Int) ^ x.scale < x.num)

/-- Round half to even of `n / d` for a positive divisor `d`, as Python
float formatting does. -/
def rheDiv (n d : Int) : Int :=
  if 2 * Int.emod n d < d then Int.ediv n d
  else if d < 2 * Int.emod n d then Int.ediv n d + 1
  else if Int.emod (Int.ediv n d) 2 = 0 then Int.ediv n d else Int.ediv n d + 1

/-- The integer number of cents of `x` rounded half to even. -/
def PyFloat.cents2 (x : PyFloat) : Int :=
  rheDiv (x.num * 100) ((10 : Int) ^ x.scale)

def pad2 (k : Nat) : List Char :=
  if k < 10 then '0' :: natToChars k else natToChars k

def decimal2Chars (m : Nat) : List Char :=
  natToChars (m / 100) ++ '.' :: pad2 (m % 100)

/-- Python `f"{x:.2f}"` on the decimal model. -/
def formatFixed2 (x : PyFloat) : String :=
  if x.cents2 < 0 then String.mk ('-' :: decimal2Chars x.cents2.natAbs)
  else String.mk (decimal2Chars x.cents2.toNat)

/-- Python `float(s)` restricted to plain decimal literals: optional sign,
digits with at most one dot, at least one digit (the only shapes this
program feeds it). `"a.b"` denotes the decimal `ab / 10 ^ len b`. -/
def parseFloatChars (l : List Char) : Option PyFloat :=
  let sb : Bool × List Char :=
    match l with
    | c :: rest => if c == '-' then (true, rest) else if c == '+' then (false, rest) else (false, l)
    | [] => (false, l)
  match splitCharAux '.' sb.2 [] with
  | [a] =>
    if a ≠ [] ∧ a.all isDigitChar then
      some ⟨if sb.1 then -(digitsVal a : Int) else (digitsVal a : Int), 0⟩
    else none
  | [a, b] =>
    if (a ≠ [] ∨ b ≠ []) ∧ a.all isDigitChar ∧ b.all isDigitChar then
      some ⟨if sb.1 then -(digitsVal (a ++ b) : Int) else (digitsVal (a ++ b) : Int), b.length⟩
    else none
  | _ => none

def pyFloat (s : String) : Option PyFloat :=
  parseFloatChars s.data

/-- Python `int(s)` restricted to the nonnegative decimal ids it parses here. -/
def pyInt (s : String) : Option Nat :=
  if s.data ≠ [] ∧ s.data.all isDigitChar then some (digitsVal s.data) else none

/-- `str.replace(a, b)` for one-character patterns. -/
def replaceChar (s : String) (a b : Char) : String :=
  String.mk (s.data.map (fun c => if c == a then b else c))

/-- `str.replace(a, "")` for a one-character pattern. -/
def removeChar (s : String) (a : Char) : String :=
  String.mk (s.data.filter (fun c => c != a))

def MAX_PRICE : Int := 1000000

def SUPPORTED_CURRENCIES : List String :=
  ["NOK", "EUR", "USD", "RUB", "SEK", "DKK", "GBP"]

def DEFAULT_CURRENCY : String := "NOK"

def CURRENCY_ALIASES : List (String × String) :=
  [("руб", "RUB"), ("руб.", "RUB"), ("р", "RUB"), ("р.", "RUB"),
   ("рублей", "RUB"), ("₽", "RUB"), ("rub", "RUB"),
   ("евро", "EUR"), ("€", "EUR"), ("eur", "EUR"),
   ("крона", "NOK"), ("кроны", "NOK"), ("крон", "NOK"),
   ("кр", "NOK"), ("кр.", "NOK"), ("nok", "NOK"),
   ("kr", "NOK"), ("kr.", "NOK"), ("kroner", "NOK"),
   ("доллар", "USD"), ("доллары", "USD"), ("дол", "USD"),
   ("дол.", "USD"), ("$", "USD"), ("usd", "USD"),
   ("фунт", "GBP"), ("фунты", "GBP"), ("£", "GBP"), ("gbp", "GBP"),
   ("sek", "SEK"), ("dkk", "DKK")]

def aliasLookup (k : String) : Option String :=
  match CURRENCY_ALIASES.find? (fun p => p.1 == k) with
  | some p => some p.2
  | none => none

/-- `normalize_currency_token` from src/main.py. -/
def normalize_currency_token (token : String) : String :=
  let t := pyStrip token
  if t = "" then ""
  else
    match aliasLookup (pyLower t) with
    | some c => c
    | none => pyUpper t

/-- `is_currency_token` from src/main.py. -/
def is_currency_token (token : String) : Bool :=
  SUPPORTED_CURRENCIES.contains (normalize_currency_token token)

/-- The amount-and-bounds part of `parse_price`: the currency must be
supported, decimal commas become dots, spaces are removed, and the amount
must satisfy `0 < amount <= MAX_PRICE`. -/
def parsePriceAmount (amount_str currency : String) : Option (PyFloat × String) :=
  if SUPPORTED_CURRENCIES.contains currency then
    match pyFloat (removeChar (replaceChar amount_str ',' '.') ' ') with
    | none => none
    | some amount =>
      if pfLeInt amount 0 || pfLtOf MAX_PRICE amount then none else some (amount, currency)
  else none

/-- `parse_price` from src/main.py. One token: the token is the amount and
the currency is the default. Two tokens: the FIRST is the amount string and
the SECOND is normalized as the currency. More tokens: failure. -/
def parse_price (input_str : String) : Option (PyFloat × String) :=
  let s := pyStrip input_str
  if s = "" then none
  else
    match pySplitWs s with
    | [a1] => parsePriceAmount a1 DEFAULT_CURRENCY
    | [a1, a2] => parsePriceAmount a1 (normalize_currency_token a2)
    | _ => none

/-- `pack_price` from src/main.py: `f"{amount:.2f} {currency}"`. -/
def pack_price (amount : PyFloat) (currency : String) : String :=
  String.mk ((formatFixed2 amount).data ++ ' ' :: currency.data)

/-- `unpack_price` from src/main.py. -/
def unpack_price (price_text : String) : Option (PyFloat × String) :=
  if price_text = "" then none
  else
    match pySplitWs (pyStrip price_text) with
    | [a, b] =>
      match pyFloat a with
      | none => none
      | some amount =>
        let currency := normalize_currency_token b
        if SUPPORTED_CURRENCIES.contains currency then some (amount, currency) else none
    | _ => none

/-- Two-digit-year pivot of `strptime` `%y`: 00-68 map to 20xx, 69-99 to 19xx. -/
def twoDigitYear (y : Nat) : Nat :=
  if y ≤ 68 then 2000 + y else 1900 + y

/-- The `datetime.date` constructor: validates month, day, and year range. -/
def mkValidDate (y m d : Nat) : Option Date :=
  if 1 ≤ y ∧ 1 ≤ m ∧ m ≤ 12 ∧ 1 ≤ d ∧ d ≤ daysInMonth y m then some ⟨y, m, d⟩ else none

/-- The shared day-and-month part of `strptime` with formats `"%d.%m.%y"`
and `"%d.%m.%Y"`: exactly three dot-separated fields, day and month of one
or two digits (full value checks happen in `mkValidDate`); returns the raw
year field for the caller to interpret. -/
def strptimeDayMonth (t : List Char) : Option (Nat × Nat × List Char) :=
  match splitCharAux '.' t [] with
  | [ds, ms, ys] =>
    if ds ≠ [] ∧ ds.length ≤ 2 ∧ ds.all isDigitChar ∧
       ms ≠ [] ∧ ms.length ≤ 2 ∧ ms.all isDigitChar then
      some (digitsVal ds, digitsVal ms, ys)
    else none
  | _ => none

/-- `parse_ru_date` from src/main.py: try `strptime` with `"%d.%m.%y"`
(two-digit year), then with `"%d.%m.%Y"` (four-digit year). -/
def parse_ru_date (text : String) : Option Date :=
  match strptimeDayMonth (stripChars text.data) with
  | none => none
  | some (d, m, ys) =>
    match (if ys.length = 2 ∧ ys.all isDigitChar then
             mkValidDate (twoDigitYear (digitsVal ys)) m d
           else none) with
    | some dt => some dt
    | none =>
      if ys.length = 4 ∧ ys.all isDigitChar then mkValidDate (digitsVal ys) m d else none

/-- `KNOWN_SERVICES` from src/main.py: alias, canonical name, category,
suggested period (the period field is never read by the tokenizer). -/
def KNOWN_SERVICES : List (String × String × String × String) :=
  [("netflix", "Netflix", "video", "month"),
   ("spotify", "Spotify", "music", "month"),
   ("youtube", "YouTube Premium", "video", "month"),
   ("youtube premium", "YouTube Premium", "video", "month"),
   ("apple music", "Apple Music", "music", "month"),
   ("yandex", "Яндекс Плюс", "other", "month"),
   ("яндекс", "Яндекс Плюс", "other", "month"),
   ("яндекс плюс", "Яндекс Плюс", "other", "month"),
   ("openai", "OpenAI", "software", "month"),
   ("chatgpt", "ChatGPT Plus", "software", "month"),
   ("claude", "Claude Pro", "software", "month"),
   ("notion", "Notion", "software", "month"),
   ("figma", "Figma", "software", "month"),
   ("adobe", "Adobe CC", "software", "month"),
   ("dropbox", "Dropbox", "cloud", "month"),
   ("icloud", "iCloud+", "cloud", "month"),
   ("google one", "Google One", "cloud", "month"),
   ("telegram", "Telegram Premium", "other", "month"),
   ("telegram premium", "Telegram Premium", "other", "month"),
   ("discord", "Discord Nitro", "other", "month"),
   ("discord nitro", "Discord Nitro", "other", "month"),
   ("xbox", "Xbox Game Pass", "games", "month"),
   ("xbox game pass", "Xbox Game Pass", "games", "month"),
   ("playstation", "PlayStation Plus", "games", "month"),
   ("ps plus", "PlayStation Plus", "games", "month"),
   ("nintendo", "Nintendo Online", "games", "year"),
   ("hbo", "HBO Max", "video", "month"),
   ("hbo max", "HBO Max", "video", "month"),
   ("disney", "Disney+", "video", "month"),
   ("disney+", "Disney+", "video", "month"),
   ("amazon prime", "Amazon Prime", "video", "month"),
   ("prime", "Amazon Prime", "video", "month"),
   ("kindle", "Kindle Unlimited", "other", "month"),
   ("audible", "Audible", "other", "month"),
   ("vpn", "VPN", "software", "month"),
   ("nordvpn", "NordVPN", "software", "month"),
   ("expressvpn", "ExpressVPN", "software", "month"),
   ("1password", "1Password", "software", "month"),
   ("lastpass", "LastPass", "software", "month"),
   ("suno", "Suno", "software", "month"),
   ("midjourney", "Midjourney", "software", "month"),
   ("github", "GitHub Pro", "software", "month"),
   ("github copilot", "GitHub Copilot", "software", "month"),
   ("copilot", "GitHub Copilot", "software", "month")]

/-- Lookup of a lowercased name in `KNOWN_SERVICES`: canonical name and category. -/
def serviceLookup (low : String) : Option (String × String) :=
  match KNOWN_SERVICES.find? (fun e => e.1 == low) with
  | some e => some (e.2.1, e.2.2.1)
  | none => none

def MAX_NAME_LENGTH : Nat := 100

/-- The tail of `try_parse_quick_add` after the price/name split: require a
nonempty name of bounded length, parse the price, then canonicalize the
name and category through `KNOWN_SERVICES`. -/
def quickAssemble (name_parts : List String) (price_raw : String) (dt : Date) :
    Option (String × PyFloat × String × Date × String) :=
  if name_parts = [] then none
  else
    let name := pyStrip (joinSpace name_parts)
    if MAX_NAME_LENGTH < name.data.length then none
    else
      match parse_price price_raw with
      | none => none
      | some pc =>
        match serviceLookup (pyLower name) with
        | some svc => some (svc.1, pc.1, pc.2, dt, svc.2)
        | none => some (name, pc.1, pc.2, dt, "other")

/-- `try_parse_quick_add` from src/main.py: the last token must be a date;
if there are at least 4 tokens and the second-to-last is a currency token,
the price is `"<parts[-3]> <parts[-2]>"` and the name is everything before;
otherwise the price is `parts[-2]` alone and the name is everything before. -/
def try_parse_quick_add (text : String) : Option (String × PyFloat × String × Date × String) :=
  let s := pyStrip text
  if s = "" then none
  else
    let parts := pySplitWs s
    if parts.length < 3 then none
    else
      match parts.reverse with
      | lastTok :: t2 :: restRev =>
        match parse_ru_date lastTok with
        | none => none
        | some dt =>
          if 4 ≤ parts.length ∧ is_currency_token t2 = true then
            match restRev with
            | t3 :: nameRev =>
              quickAssemble nameRev.reverse (String.mk (t3.data ++ ' ' :: t2.data)) dt
            | [] => none
          else
            quickAssemble restRev.reverse t2 dt
      | _ => none

/-- A row of the `subscriptions` table. -/
structure Subscription where
  id : Nat
  user_id : Nat
  name : String
  price : String
  day : Nat
  period : String
  last_charge_date : Option String
  category : String
  is_paused : Bool
deriving DecidableEq, Repr

/-- A row of the `payment_history` table. -/
structure PaymentRow where
  subscription_id : Nat
  user_id : Nat
  amount : String
  paid_at : String
deriving DecidableEq, Repr

/-- The persistent store the handlers mutate: both tables plus the next
autoincrement id. -/
structure BotState where
  subs : List Subscription
  payments : List PaymentRow
  nextId : Nat
deriving DecidableEq, Repr

/-- `update_subscription_field` from src/main.py, for the string-valued
fields the duplicate handlers touch (`day`/`is_paused` carry non-string
values in the source and are never updated by those handlers). -/
def update_subscription_field (st : BotState) (user_id sub_id : Nat)
    (field : String) (value : String) : BotState :=
  if (["name", "price", "day", "period", "last_charge_date", "category", "is_paused"]
      : List String).contains field then
    { st with subs := st.subs.map (fun s =>
        if s.id = sub_id ∧ s.user_id = user_id then
          if field == "name" then { s with name := value }
          else if field == "price" then { s with price := value }
          else if field == "last_charge_date" then { s with last_charge_date := some value }
          else if field == "period" then { s with period := value }
          else if field == "category" then { s with category := value }
          else s
        else s) }
  else st

/-- `add_payment` from src/main.py: insert one `payment_history` row. -/
def add_payment (st : BotState) (user_id sub_id : Nat) (amount paid_at : String) : BotState :=
  { st with payments := st.payments ++ [⟨sub_id, user_id, amount, paid_at⟩] }

/-- `add_subscription` from src/main.py: insert a row, return the new id. -/
def add_subscription (st : BotState) (user_id : Nat) (name price : String)
    (day : Nat) (period : String) (last_charge_date : Option String)
    (category : String) : BotState × Nat :=
  ({ st with
      subs := st.subs ++ [⟨st.nextId, user_id, name, price, day, period,
        last_charge_date, category, false⟩],
      nextId := st.nextId + 1 },
   st.nextId)

/-- `date.fromisoformat` on the `YYYY-MM-DD` strings this program stores. -/
def fromisoformat (s : String) : Option Date :=
  match splitCharAux '-' s.data [] with
  | [ys, ms, ds] =>
    if ys.length = 4 ∧ ys.all isDigitChar ∧ ms.length = 2 ∧ ms.all isDigitChar ∧
       ds.length = 2 ∧ ds.all isDigitChar then
      mkValidDate (digitsVal ys) (digitsVal ms) (digitsVal ds)
    else none
  | _ => none

def DEFAULT_PERIOD : String := "month"

/-- The `dup_create:` branch, identical in both revisions of
`duplicate_callback` in src/main.py. A parse failure raises inside the
`try` before any store call, so the state is unchanged. -/
def dupCreateBranch (st : BotState) (user_id : Nat) (data : String) : BotState :=
  match pySplitCharMax data ':' 1 with
  | [_, new_data] =>
    let dp := pySplitChar new_data '|'
    if 5 ≤ dp.length then
      match pyFloat (dp.getD 1 "") with
      | none => st
      | some amount =>
        let name := dp.getD 0 ""
        let currency := dp.getD 2 ""
        let last_date := dp.getD 3 ""
        let category := dp.getD 4 ""
        match (if 5 < dp.length then pyInt (dp.getD 5 "")
               else (fromisoformat last_date).map (fun d => d.day)) with
        | none => st
        | some day =>
          (add_subscription st user_id name (pack_price amount currency) day
            DEFAULT_PERIOD (if last_date ≠ "" then some last_date else none) category).1
    else st
  | _ => st

/-- The FIRST definition of `duplicate_callback` in src/main.py (line 759):
it handles `dup_payment:` (append a payment row, then update date and
price), `dup_update:` (update fields only), `dup_create:`, `dup_cancel`.
This definition is shadowed by the second one and never registered. -/
def duplicate_callback_v1 (st : BotState) (user_id : Nat) (data : String) : BotState :=
  if pyStartsWith data ("dup_payment:") then
    match pySplitCharMax data ':' 2 with
    | [_, p1, p2] =>
      match pyInt p1 with
      | none => st
      | some existing_id =>
        let dp := pySplitChar p2 '|'
        if 4 ≤ dp.length then
          match pyFloat (dp.getD 1 "") with
          | none => st
          | some amount =>
            let currency := dp.getD 2 ""
            let last_date := dp.getD 3 ""
            if last_date ≠ "" then
              let new_price := pack_price amount currency
              let st1 := add_payment st user_id existing_id new_price last_date
              let st2 := update_subscription_field st1 user_id existing_id
                ("last_charge_date") last_date
              update_subscription_field st2 user_id existing_id ("price") new_price
            else st
        else st
    | _ => st
  else if pyStartsWith data ("dup_update:") then
    match pySplitCharMax data ':' 2 with
    | [_, p1, p2] =>
      match pyInt p1 with
      | none => st
      | some existing_id =>
        let dp := pySplitChar p2 '|'
        if 4 ≤ dp.length then
          match pyFloat (dp.getD 1 "") with
          | none => st
          | some amount =>
            let currency := dp.getD 2 ""
            let last_date := dp.getD 3 ""
            let st1 := if last_date ≠ "" then
                update_subscription_field st user_id existing_id ("last_charge_date") last_date
              else st
            if amount.num ≠ 0 ∧ currency ≠ "" then
              update_subscription_field st1 user_id existing_id ("price")
                (pack_price amount currency)
            else st1
        else st
    | _ => st
  else if pyStartsWith data ("dup_create:") then
    dupCreateBranch st user_id data
  else st

/-- The SECOND definition of `duplicate_callback` in src/main.py (line
1703). In Python the later definition shadows the earlier one, and the
registration `CallbackQueryHandler(duplicate_callback, pattern=
r"^dup_(payment|update|create|cancel)")` at line 2503 binds THIS one. It
has no `dup_payment:` branch: that callback data falls through the whole
`if`/`elif` chain and mutates nothing. -/
def duplicate_callback (st : BotState) (user_id : Nat) (data : String) : BotState :=
  if pyStartsWith data ("dup_update:") then
    match pySplitCharMax data ':' 2 with
    | [_, p1, p2] =>
      match pyInt p1 with
      | none => st
      | some existing_id =>
        let dp := pySplitChar p2 '|'
        if 4 ≤ dp.length then
          let last_date := dp.getD 3 ""
          if last_date ≠ "" then
            let st1 := update_subscription_field st user_id existing_id
              ("last_charge_date") last_date
            if 3 ≤ dp.length then
              match pyFloat (dp.getD 1 "") with
              | none => st1
              | some amount =>
                update_subscription_field st1 user_id existing_id ("price")
                  (pack_price amount (dp.getD 2 ""))
            else st1
          else st
        else st
    | _ => st
  else if pyStartsWith data ("dup_create:") then
    dupCreateBranch st user_id data
  else st

theorem daysInMonth_le (y m : Nat) : daysInMonth y m ≤ 31 := by
  unfold daysInMonth
  split_ifs <;> simp_all

theorem daysInMonth_ge (y m : Nat) : 28 ≤ daysInMonth y m := by
  unfold daysInMonth
  split_ifs <;> simp_all

theorem clamp_day_ge_one (y m w : Nat) : 1 ≤ clamp_day y m w := by
  unfold clamp_day
  have h := daysInMonth_ge y m
  have h2 : 1 ≤ max 1 w := Nat.le_max_left 1 w
  omega

theorem clamp_day_le (y m w : Nat) : clamp_day y m w ≤ 31 := by
  unfold clamp_day
  have h := daysInMonth_le y m
  have h2 : min (max 1 w) (daysInMonth y m) ≤ daysInMonth y m := Nat.min_le_right _ _
  omega

theorem clamp_day_eq_min (y m w : Nat) (hw : 1 ≤ w) :
    clamp_day y m w = min w (daysInMonth y m) := by
  unfold clamp_day
  have h : max 1 w = w := Nat.max_eq_right hw
  rw [h]

/-- Each loop iteration yields a valid date and strictly increases the
measure, for both the year branch and the month branch. -/
theorem periodStep_valid_increasing (p : String) (c : Date) (h : validDate c) :
    validDate (periodStep p c) ∧ encodeDate c < encodeDate (periodStep p c) := by
  obtain ⟨hm1, hm2, hd1, hd2⟩ := h
  unfold periodStep
  split
  · unfold add_years validDate encodeDate
    have h1 := clamp_day_ge_one (c.year + 1) c.month c.day
    have h2 := clamp_day_le (c.year + 1) c.month c.day
    simp only []
    refine ⟨⟨hm1, hm2, h1, h2⟩, ?_⟩
    omega
  · unfold add_months validDate encodeDate
    have hstep : c.month - 1 + 1 = c.month := by omega
    rw [hstep]
    rcases Nat.lt_or_ge c.month 12 with hlt | hge
    · have hdiv : c.month / 12 = 0 := Nat.div_eq_of_lt hlt
      have hmod : c.month % 12 = c.month := Nat.mod_eq_of_lt hlt
      rw [hdiv, hmod]
      have h1 := clamp_day_ge_one (c.year + 0) (c.month + 1) c.day
      have h2 := clamp_day_le (c.year + 0) (c.month + 1) c.day
      simp only []
      refine ⟨⟨by omega, by omega, h1, h2⟩, ?_⟩
      omega
    · have hm12 : c.month = 12 := by omega
      rw [hm12]
      have h1 := clamp_day_ge_one (c.year + 12 / 12) (12 % 12 + 1) c.day
      have h2 := clamp_day_le (c.year + 12 / 12) (12 % 12 + 1) c.day
      simp only []
      refine ⟨⟨by omega, by omega, h1, h2⟩, ?_⟩
      simp only [Nat.reduceDiv, Nat.reduceMod] at h1 h2 ⊢
      omega

/-- For valid dates, the lexicographic order implies the measure order. -/
theorem dateLt_encode {a b : Date} (ha : validDate a) (hb : validDate b)
    (h : dateLt a b = true) : encodeDate a < encodeDate b := by
  obtain ⟨ham1, ham2, had1, had2⟩ := ha
  obtain ⟨hbm1, hbm2, hbd1, hbd2⟩ := hb
  unfold dateLt at h
  unfold encodeDate
  split_ifs at h <;> simp_all <;> omega

theorem dateLt_irrefl (a : Date) : dateLt a a = false := by
  unfold dateLt
  simp

/-- With enough fuel, the loop result is never strictly before `today`. -/
theorem nextFromLastGo_not_lt (p : String) (today : Date) (ht : validDate today) :
    ∀ fuel c, validDate c → encodeDate today ≤ encodeDate c + fuel →
      dateLt (nextFromLastGo fuel c p today) today = false := by
  intro fuel
  induction fuel with
  | zero =>
    intro c hc hfuel
    unfold nextFromLastGo
    cases hlt : dateLt c today with
    | false => rfl
    | true =>
      have := dateLt_encode hc ht hlt
      omega
  | succ f ih =>
    intro c hc hfuel
    unfold nextFromLastGo
    cases hlt : dateLt c today with
    | false => simp [hlt]
    | true =>
      simp only [hlt, if_true]
      obtain ⟨hv, hinc⟩ := periodStep_valid_increasing p c hc
      exact ih (periodStep p c) hv (by omega)

theorem next_from_last_fixed (n : Date) (p : String) : next_from_last n p n = n := by
  unfold next_from_last nextFromLastGo
  simp [dateLt_irrefl]

/-- The loop of `next_from_last` does not depend on the period string
except through the test `period == "year"`. -/
theorem nextFromLastGo_week_eq_month (fuel : Nat) :
    ∀ c today, nextFromLastGo fuel c "week" today = nextFromLastGo fuel c "month" today := by
  induction fuel with
  | zero => intro c today; rfl
  | succ f ih =>
    intro c today
    unfold nextFromLastGo
    cases hlt : dateLt c today with
    | false => simp [hlt]
    | true =>
      simp only [hlt, if_true]
      have hstep : periodStep "week" c = periodStep "month" c := rfl
      rw [hstep]
      exact ih (periodStep "month" c) today

/-- C1 (counterexample). When the last charge date equals today, the code
returns today itself, not a date strictly after today: the loop guard in
src/main.py line 176 is `candidate < today`, not `candidate <= today`. -/
theorem next_from_last_eq_today_cex :
    dateLe ⟨2026, 1, 15⟩ ⟨2026, 1, 15⟩ = true ∧
    next_from_last ⟨2026, 1, 15⟩ "month" ⟨2026, 1, 15⟩ = ⟨2026, 1, 15⟩ ∧
    dateLt ⟨2026, 1, 15⟩ (next_from_last ⟨2026, 1, 15⟩ "month" ⟨2026, 1, 15⟩) = false := by
  decide

/-- C1 (amended). For every period and valid dates `d <= today`, the
result of `next_from_last d p today` is never strictly before `today`
(i.e. it is on or after `today`); when `d` equals `today` exactly the
result is `today` itself, not one period later. -/
theorem next_from_last_never_before_today (p : String) (d today : Date)
    (hd : validDate d) (ht : validDate today) (_hle : dateLe d today = true) :
    dateLt (next_from_last d p today) today = false ∧
    next_from_last today p today = today := by
  constructor
  · exact nextFromLastGo_not_lt p today ht (encodeDate today + 1) d hd (by omega)
  · exact next_from_last_fixed today p

/-- Witness for C1 (amended) at `d = 2026-01-10`, `today = 2026-01-15`. -/
theorem next_from_last_never_before_today_witness :
    dateLt (next_from_last ⟨2026, 1, 10⟩ "month" ⟨2026, 1, 15⟩) ⟨2026, 1, 15⟩ = false ∧
    next_from_last ⟨2026, 1, 15⟩ "month" ⟨2026, 1, 15⟩ = ⟨2026, 1, 15⟩ :=
  next_from_last_never_before_today "month" ⟨2026, 1, 10⟩ ⟨2026, 1, 15⟩
    (by decide) (by decide) (by decide)

/-- C5 (counterexample). For the period string `"week"` the code does not
advance by 7 days: starting from 2026-01-01 with today 2026-01-02, the
result is 2026-02-01, which is 31 days after the last charge date, and 31
is not a whole number of weeks. -/
theorem next_from_last_week_cex :
    dateLe ⟨2026, 1, 1⟩ ⟨2026, 1, 2⟩ = true ∧
    next_from_last ⟨2026, 1, 1⟩ "week" ⟨2026, 1, 2⟩ = ⟨2026, 2, 1⟩ ∧
    dateOrdinal ⟨2026, 2, 1⟩ - dateOrdinal ⟨2026, 1, 1⟩ = 31 ∧ ¬ (7 ∣ 31) := by
  decide

/-- C5 (amended). `next_from_last` has no week branch: every period other
than `"year"` -- including `"week"` -- advances by `add_months(candidate, 1)`
per iteration, so the `"week"` period behaves exactly like `"month"`. -/
theorem next_from_last_week_eq_month (d today : Date) :
    next_from_last d "week" today = next_from_last d "month" today ∧
    ∀ c : Date, periodStep "week" c = add_months c 1 := by
  constructor
  · exact nextFromLastGo_week_eq_month (encodeDate today + 1) d today
  · intro c; rfl

/-- C6 (counterexample). Re-applying the recurrence to its own result `n`
with `today = n` returns `n` unchanged rather than advancing by one more
period: from `d = 2026-01-15`, `today = 2026-01-20`, the first call gives
`n = 2026-02-15`, the second call returns `n` itself, while one more month
would give 2026-03-15. -/
theorem next_from_last_reapply_cex :
    next_from_last ⟨2026, 1, 15⟩ "month" ⟨2026, 1, 20⟩ = ⟨2026, 2, 15⟩ ∧
    next_from_last ⟨2026, 2, 15⟩ "month" ⟨2026, 2, 15⟩ = ⟨2026, 2, 15⟩ ∧
    add_months ⟨2026, 2, 15⟩ 1 = ⟨2026, 3, 15⟩ ∧
    (⟨2026, 2, 15⟩ : Date) ≠ ⟨2026, 3, 15⟩ := by
  decide

/-- C6 (amended). Because the loop guard is strict (`candidate < today`),
re-applying `next_from_last` to its own result leaves it unchanged: for
every `d`, `p`, `today`, `next_from_last (next_from_last d p today) p
(next_from_last d p today)` equals `next_from_last d p today` -- no
double-skipping, but also no further advancement. -/
theorem next_from_last_reapply_unchanged (d today : Date) (p : String) :
    next_from_last (next_from_last d p today) p (next_from_last d p today) =
      next_from_last d p today :=
  next_from_last_fixed (next_from_last d p today) p

/-- C8. `add_months` re-clamps the day-of-month into the target month and
never rolls over into the following month: the two spec examples hold, and
in general the result's day is `d.day` clamped to the length of the target
month while the result's month is exactly the target month. -/
theorem add_months_clamps_day (d : Date) (n : Nat) (h : 1 ≤ d.day) :
    add_months ⟨2024, 1, 31⟩ 1 = ⟨2024, 2, 29⟩ ∧
    add_months ⟨2023, 1, 31⟩ 1 = ⟨2023, 2, 28⟩ ∧
    (add_months d n).day =
      min d.day (daysInMonth (add_months d n).year (add_months d n).month) ∧
    (add_months d n).month = (d.month - 1 + n) % 12 + 1 := by
  refine ⟨by decide, by decide, ?_, rfl⟩
  unfold add_months
  exact clamp_day_eq_min _ _ _ h

/-- Witness for C8 at `d = 2024-03-31`, `n = 1` (31 clamps to 30 in April). -/
theorem add_months_clamps_day_witness :
    add_months ⟨2024, 1, 31⟩ 1 = ⟨2024, 2, 29⟩ ∧
    add_months ⟨2023, 1, 31⟩ 1 = ⟨2023, 2, 28⟩ ∧
    (add_months ⟨2024, 3, 31⟩ 1).day =
      min (Date.mk 2024 3 31).day
        (daysInMonth (add_months ⟨2024, 3, 31⟩ 1).year (add_months ⟨2024, 3, 31⟩ 1).month) ∧
    (add_months ⟨2024, 3, 31⟩ 1).month = ((Date.mk 2024 3 31).month - 1 + 1) % 12 + 1 :=
  add_months_clamps_day ⟨2024, 3, 31⟩ 1 (by decide)

/-- C10. Adding twelve months agrees with adding one year, for every date
whose month field is a real month; both clamp Feb 29 to Feb 28 in a
non-leap target year. -/
theorem add_months_twelve_eq_add_years (d : Date)
    (h1 : 1 ≤ d.month) (h2 : d.month ≤ 12) :
    add_months d 12 = add_years d 1 := by
  unfold add_months add_years
  have hdiv : (d.month - 1 + 12) / 12 = 1 := by omega
  have hmod : (d.month - 1 + 12) % 12 + 1 = d.month := by omega
  rw [hdiv, hmod]

/-- Witness for C10 at the Feb 29 leap anchor: both sides give 2025-02-28. -/
theorem add_months_twelve_eq_add_years_witness :
    add_months ⟨2024, 2, 29⟩ 12 = add_years ⟨2024, 2, 29⟩ 1 ∧
    add_years ⟨2024, 2, 29⟩ 1 = ⟨2025, 2, 28⟩ :=
  ⟨add_months_twelve_eq_add_years ⟨2024, 2, 29⟩ (by decide) (by decide), by decide⟩

/-- C3 (counterexample). `parse_price` is not order-symmetric on two-token
input: `"kr 129"` is rejected while `"129 kr"` succeeds, because the first
token is always the amount and the second always the currency. -/
theorem parse_price_order_cex :
    parse_price ("kr 129") = none ∧ parse_price ("129 kr") = some (⟨129, 0⟩, "NOK") := by
  decide

/-- C3 (amended). On any two-token input, `parse_price` parses the FIRST
token as the amount string and normalizes the SECOND as the currency,
regardless of which token looks like a currency; the currency-then-amount
order is therefore rejected, not accepted. -/
theorem parse_price_first_token_amount (inp a b : String)
    (h : pySplitWs (pyStrip inp) = [a, b]) :
    parse_price inp = parsePriceAmount a (normalize_currency_token b) := by
  have hne : ¬ (pyStrip inp = "") := by
    intro he
    rw [he] at h
    simp [pySplitWs, splitWsAux] at h
  unfold parse_price
  rw [if_neg hne, h]

/-- Witness for C3 (amended) at the input `"129 kr"`. -/
theorem parse_price_first_token_amount_witness :
    parse_price ("129 kr") = parsePriceAmount ("129") (normalize_currency_token ("kr")) :=
  parse_price_first_token_amount ("129 kr") ("129") ("kr") (by decide)

/-- C4 (counterexample). The quick-add tokenizer is NOT order-independent:
with the currency before the amount, the token `"kr"` is folded into the
name, so the two inputs produce different candidates (different name and,
through the known-service table, different category). -/
theorem try_parse_quick_add_order_cex :
    try_parse_quick_add ("Netflix 129 kr 15.01.26") =
      some ("Netflix", ⟨129, 0⟩, "NOK", ⟨2026, 1, 15⟩, "video") ∧
    try_parse_quick_add ("Netflix kr 129 15.01.26") =
      some ("Netflix kr", ⟨129, 0⟩, "NOK", ⟨2026, 1, 15⟩, "other") ∧
    ("Netflix" : String) ≠ ("Netflix kr") := by
  decide

/-- C4 (amended). Only the amount-then-currency order yields the candidate
named `"Netflix"`; with the currency first, the currency check applies to
`parts[-2] = "129"`, so `"kr"` becomes part of the name: the result is the
candidate `("Netflix kr", 129, NOK-by-default, 2026-01-15, "other")`. -/
theorem try_parse_quick_add_orders :
    try_parse_quick_add ("Netflix 129 kr 15.01.26") =
      some ("Netflix", ⟨129, 0⟩, "NOK", ⟨2026, 1, 15⟩, "video") ∧
    try_parse_quick_add ("Netflix kr 129 15.01.26") =
      some ("Netflix kr", ⟨129, 0⟩, "NOK", ⟨2026, 1, 15⟩, "other") := by
  decide

/-- C9. `parse_price` rejects out-of-range amounts and accepts in-range
ones: `"0"` and `"1000001"` are rejected, `"129 kr"` gives `(129, NOK)`. -/
theorem parse_price_bounds :
    parse_price ("0") = none ∧ parse_price ("1000001") = none ∧
    parse_price ("129 kr") = some (⟨129, 0⟩, "NOK") := by
  decide

/-- C2. The registered `duplicate_callback` (the second definition, which
shadows the first) has no `dup_payment:` branch, so a RecordPayment
decision appends NO payment row and updates NO fields, contradicting the
spec; the shadowed first definition implements the specified behavior
(exactly one appended row plus price and last-charge-date updates), and
the `dup_update:` branch of the registered handler performs the same field
updates while appending zero rows. -/
theorem duplicate_payment_branch_noop :
    duplicate_callback
      ⟨[⟨1, 42, "Netflix", "99.00 NOK", 15, "month", some "2025-12-15", "video", false⟩], [], 2⟩
      42 ("dup_payment:1:Netflix|129.0|NOK|2026-01-15|video") =
      ⟨[⟨1, 42, "Netflix", "99.00 NOK", 15, "month", some "2025-12-15", "video", false⟩], [], 2⟩ ∧
    duplicate_callback_v1
      ⟨[⟨1, 42, "Netflix", "99.00 NOK", 15, "month", some "2025-12-15", "video", false⟩], [], 2⟩
      42 ("dup_payment:1:Netflix|129.0|NOK|2026-01-15|video") =
      ⟨[⟨1, 42, "Netflix", "129.00 NOK", 15, "month", some "2026-01-15", "video", false⟩],
       [⟨1, 42, "129.00 NOK", "2026-01-15"⟩], 2⟩ ∧
    duplicate_callback
      ⟨[⟨1, 42, "Netflix", "99.00 NOK", 15, "month", some "2025-12-15", "video", false⟩], [], 2⟩
      42 ("dup_update:1:Netflix|129.0|NOK|2026-01-15|video") =
      ⟨[⟨1, 42, "Netflix", "129.00 NOK", 15, "month", some "2026-01-15", "video", false⟩], [], 2⟩ := by
  decide

theorem digitsVal_go (ys : List Char) :
    ∀ a : Nat, ys.foldl (fun x c => 10 * x + digitVal c) a =
      a * 10 ^ ys.length + digitsVal ys := by
  induction ys with
  | nil => intro a; simp [digitsVal]
  | cons c rest ih =>
    intro a
    simp only [List.foldl_cons, List.length_cons, digitsVal]
    rw [ih (10 * a + digitVal c), ih (10 * 0 + digitVal c)]
    ring

theorem digitsVal_append (xs ys : List Char) :
    digitsVal (xs ++ ys) = digitsVal xs * 10 ^ ys.length + digitsVal ys := by
  unfold digitsVal
  rw [List.foldl_append]
  exact digitsVal_go ys _

theorem digitChar_spec : ∀ k : Nat, k < 10 →
    isDigitChar (digitChar k) = true ∧ digitVal (digitChar k) = k := by
  decide

theorem natToCharsAux_spec :
    ∀ fuel n : Nat, n ≤ fuel →
      (∀ c ∈ natToCharsAux fuel n, isDigitChar c = true) ∧
      digitsVal (natToCharsAux fuel n) = n := by
  intro fuel
  induction fuel with
  | zero =>
    intro n hn
    have h0 : n = 0 := by omega
    subst h0
    exact ⟨by intro c hc; simp [natToCharsAux] at hc, by simp [natToCharsAux, digitsVal]⟩
  | succ f ih =>
    intro n hn
    by_cases h0 : n = 0
    · subst h0
      exact ⟨by intro c hc; simp [natToCharsAux] at hc, by simp [natToCharsAux, digitsVal]⟩
    · have hdiv : n / 10 ≤ f := by omega
      obtain ⟨ihall, ihval⟩ := ih (n / 10) hdiv
      obtain ⟨hdig, hdval⟩ := digitChar_spec (n % 10) (Nat.mod_lt n (by omega))
      constructor
      · intro c hc
        simp only [natToCharsAux, h0, if_false, List.mem_append, List.mem_singleton] at hc
        rcases hc with hc | hc
        · exact ihall c hc
        · rw [hc]; exact hdig
      · simp only [natToCharsAux, h0, if_false]
        rw [digitsVal_append, ihval]
        simp [digitsVal, hdval]
        omega

theorem natToChars_spec (n : Nat) :
    (∀ c ∈ natToChars n, isDigitChar c = true) ∧
    natToChars n ≠ [] ∧ digitsVal (natToChars n) = n := by
  unfold natToChars
  by_cases h0 : n = 0
  · subst h0
    refine ⟨?_, by simp, by simp [digitsVal, digitVal]⟩
    intro c hc
    simp at hc
    rw [hc]
    decide
  · obtain ⟨hall, hval⟩ := natToCharsAux_spec n n (Nat.le_refl n)
    refine ⟨by simpa [h0] using hall, ?_, by simpa [h0] using hval⟩
    simp only [h0, if_false]
    intro hemp
    rw [hemp] at hval
    simp [digitsVal] at hval
    exact h0 hval.symm

theorem pad2_spec : ∀ r : Nat, r < 100 →
    (pad2 r).length = 2 ∧ (∀ c ∈ pad2 r, isDigitChar c = true) ∧ digitsVal (pad2 r) = r := by
  decide

theorem isDigitChar_toNat {c : Char} (h : isDigitChar c = true) :
    48 ≤ c.toNat ∧ c.toNat ≤ 57 := by
  unfold isDigitChar at h
  simpa using h

theorem not_ws_of_digit {c : Char} (h : isDigitChar c = true) : isWsChar c = false := by
  obtain ⟨h1, h2⟩ := isDigitChar_toNat h
  unfold isWsChar
  simp only [Bool.or_eq_false_iff, decide_eq_false_iff_not]
  omega

theorem ne_of_digit_toNat {c d : Char} (h : isDigitChar c = true)
    (hd : d.toNat < 48) : (c == d) = false := by
  obtain ⟨h1, _⟩ := isDigitChar_toNat h
  by_cases he : c = d
  · subst he; omega
  · simp [he]

theorem splitWsAux_all (xs : List Char) :
    ∀ acc, (∀ c ∈ xs, isWsChar c = false) →
      splitWsAux xs acc =
        if acc.reverse ++ xs = [] then [] else [acc.reverse ++ xs] := by
  induction xs with
  | nil =>
    intro acc _
    simp only [splitWsAux, List.append_nil]
    by_cases ha : acc = []
    · subst ha; simp
    · simp [ha, List.reverse_eq_nil_iff]
  | cons c rest ih =>
    intro acc hall
    have hc : isWsChar c = false := hall c (List.mem_cons_self c rest)
    simp only [splitWsAux, hc, if_false, Bool.false_eq_true]
    rw [ih (c :: acc) (fun d hd => hall d (List.mem_cons_of_mem c hd))]
    have hre : (c :: acc).reverse ++ rest = acc.reverse ++ c :: rest := by
      simp
    rw [hre]

theorem splitWsAux_append (ys : List Char) (xs : List Char) :
    ∀ acc, (∀ c ∈ xs, isWsChar c = false) →
      splitWsAux (xs ++ ' ' :: ys) acc =
        (if acc.reverse ++ xs = [] then [] else [acc.reverse ++ xs]) ++ splitWsAux ys [] := by
  induction xs with
  | nil =>
    intro acc _
    have hws : isWsChar ' ' = true := by decide
    simp only [List.nil_append, splitWsAux, hws, if_true, List.append_nil]
    by_cases ha : acc = []
    · subst ha; simp
    · simp [ha, List.reverse_eq_nil_iff]
  | cons c rest ih =>
    intro acc hall
    have hc : isWsChar c = false := hall c (List.mem_cons_self c rest)
    simp only [List.cons_append, splitWsAux, hc, if_false, Bool.false_eq_true,
      List.append_eq]
    rw [ih (c :: acc) (fun d hd => hall d (List.mem_cons_of_mem c hd))]
    have hre : (c :: acc).reverse ++ rest = acc.reverse ++ c :: rest := by
      simp
    rw [hre]

theorem splitCharAux_no_sep (sep : Char) (xs : List Char) :
    ∀ acc, (∀ c ∈ xs, (c == sep) = false) →
      splitCharAux sep xs acc = [acc.reverse ++ xs] := by
  induction xs with
  | nil => intro acc _; simp [splitCharAux]
  | cons c rest ih =>
    intro acc hall
    have hc := hall c (List.mem_cons_self c rest)
    simp only [splitCharAux, hc, if_false, Bool.false_eq_true]
    rw [ih (c :: acc) (fun d hd => hall d (List.mem_cons_of_mem c hd))]
    simp

theorem splitCharAux_mid (sep : Char) (ys : List Char) (xs : List Char) :
    ∀ acc, (∀ c ∈ xs, (c == sep) = false) →
      splitCharAux sep (xs ++ sep :: ys) acc =
        (acc.reverse ++ xs) :: splitCharAux sep ys [] := by
  induction xs with
  | nil =>
    intro acc _
    simp [splitCharAux]
  | cons c rest ih =>
    intro acc hall
    have hc := hall c (List.mem_cons_self c rest)
    simp only [List.cons_append, splitCharAux, hc, if_false, Bool.false_eq_true,
      List.append_eq]
    rw [ih (c :: acc) (fun d hd => hall d (List.mem_cons_of_mem c hd))]
    simp

theorem stripChars_eq_self (l : List Char)
    (h1 : ∀ c, l.head? = some c → isWsChar c = false)
    (h2 : ∀ c, l.getLast? = some c → isWsChar c = false) :
    stripChars l = l := by
  unfold stripChars
  have hd : l.dropWhile (fun c => isWsChar c) = l := by
    cases l with
    | nil => rfl
    | cons c rest =>
      have := h1 c rfl
      simp [List.dropWhile_cons, this]
  rw [hd]
  have hrev : l.reverse.dropWhile (fun c => isWsChar c) = l.reverse := by
    cases hr : l.reverse with
    | nil => rfl
    | cons c rest =>
      have hlast : l.getLast? = some c := by
        rw [← List.head?_reverse, hr]
        rfl
      have := h2 c hlast
      simp [List.dropWhile_cons, this]
  rw [hrev, List.reverse_reverse]

theorem rheDiv_nonneg {n d : Int} (hn : 0 ≤ n) (hd : 0 < d) : 0 ≤ rheDiv n d := by
  unfold rheDiv
  have hq : 0 ≤ Int.ediv n d := Int.ediv_nonneg hn (le_of_lt hd)
  split_ifs <;> omega

theorem rheDiv_close {n d : Int} (hd : 0 < d) :
    |(rheDiv n d : ℚ) - (n : ℚ) / (d : ℚ)| ≤ 1 / 2 := by
  have hdq : (0 : ℚ) < (d : ℚ) := by exact_mod_cast hd
  have hqr : d * Int.ediv n d + Int.emod n d = n := Int.ediv_add_emod n d
  have hr0 : (0 : ℚ) ≤ (Int.emod n d : ℚ) := by
    exact_mod_cast Int.emod_nonneg n (ne_of_gt hd)
  have hrd : ((Int.emod n d : ℚ)) < (d : ℚ) := by
    exact_mod_cast Int.emod_lt_of_pos n hd
  have hnd : (n : ℚ) / (d : ℚ) = (Int.ediv n d : ℚ) + (Int.emod n d : ℚ) / (d : ℚ) := by
    have hn : (n : ℚ) = (d : ℚ) * (Int.ediv n d : ℚ) + (Int.emod n d : ℚ) := by
      exact_mod_cast hqr.symm
    rw [hn]
    field_simp
    ring
  rw [hnd]
  unfold rheDiv
  split_ifs with g1 g2 g3
  · have g1q : 2 * (Int.emod n d : ℚ) < (d : ℚ) := by exact_mod_cast g1
    rw [abs_le]
    constructor
    · have : (Int.emod n d : ℚ) / (d : ℚ) < 1 / 2 := by
        rw [div_lt_iff₀ hdq]
        linarith
      linarith
    · have : (0 : ℚ) ≤ (Int.emod n d : ℚ) / (d : ℚ) := by positivity
      linarith
  · have g2q : (d : ℚ) < 2 * (Int.emod n d : ℚ) := by exact_mod_cast g2
    have hlow : 1 / 2 < (Int.emod n d : ℚ) / (d : ℚ) := by
      rw [lt_div_iff₀ hdq]
      linarith
    have hhigh : (Int.emod n d : ℚ) / (d : ℚ) < 1 := by
      rw [div_lt_one hdq]
      linarith
    rw [abs_le]
    constructor
    · push_cast
      linarith
    · push_cast
      linarith
  · have ghalf : (Int.emod n d : ℚ) / (d : ℚ) = 1 / 2 := by
      have : 2 * (Int.emod n d : ℚ) = (d : ℚ) := by
        exact_mod_cast le_antisymm (by exact_mod_cast not_lt.mp g2) (by exact_mod_cast not_lt.mp g1)
      rw [div_eq_iff (ne_of_gt hdq)]
      linarith
    rw [abs_le]
    constructor
    · linarith
    · linarith
  · have ghalf : (Int.emod n d : ℚ) / (d : ℚ) = 1 / 2 := by
      have : 2 * (Int.emod n d : ℚ) = (d : ℚ) := by
        exact_mod_cast le_antisymm (by exact_mod_cast not_lt.mp g2) (by exact_mod_cast not_lt.mp g1)
      rw [div_eq_iff (ne_of_gt hdq)]
      linarith
    rw [abs_le]
    constructor
    · push_cast
      linarith
    · push_cast
      linarith

theorem decimal2Chars_all_digit_or_dot (m : Nat) :
    ∀ c ∈ decimal2Chars m, isDigitChar c = true ∨ c = '.' := by
  intro c hc
  unfold decimal2Chars at hc
  obtain ⟨hallA, _, _⟩ := natToChars_spec (m / 100)
  obtain ⟨_, hallB, _⟩ := pad2_spec (m % 100) (Nat.mod_lt m (by omega))
  simp only [List.mem_append, List.mem_cons] at hc
  rcases hc with hc | hc | hc
  · exact Or.inl (hallA c hc)
  · exact Or.inr hc
  · exact Or.inl (hallB c hc)

theorem decimal2Chars_not_ws (m : Nat) :
    ∀ c ∈ decimal2Chars m, isWsChar c = false := by
  intro c hc
  rcases decimal2Chars_all_digit_or_dot m c hc with h | h
  · exact not_ws_of_digit h
  · rw [h]; decide

theorem decimal2Chars_head_digit (m : Nat) :
    ∃ hd tl, decimal2Chars m = hd :: tl ∧ isDigitChar hd = true := by
  obtain ⟨hallA, hneA, _⟩ := natToChars_spec (m / 100)
  unfold decimal2Chars
  cases hA : natToChars (m / 100) with
  | nil => exact absurd hA hneA
  | cons hd tl =>
    refine ⟨hd, tl ++ '.' :: pad2 (m % 100), by simp, ?_⟩
    exact hallA hd (by rw [hA]; exact List.mem_cons_self hd tl)

theorem parseFloatChars_decimal (m : Nat) :
    parseFloatChars (decimal2Chars m) = some ⟨(m : Int), 2⟩ := by
  obtain ⟨hallA, hneA, hvalA⟩ := natToChars_spec (m / 100)
  obtain ⟨hlenB, hallB, hvalB⟩ := pad2_spec (m % 100) (Nat.mod_lt m (by omega))
  obtain ⟨hd, tl, hshape, hhd⟩ := decimal2Chars_head_digit m
  have hsign : ∀ d : Char, d.toNat < 48 → (hd == d) = false := fun d hdlt =>
    ne_of_digit_toNat hhd hdlt
  have hsplit : splitCharAux '.' (decimal2Chars m) [] =
      [natToChars (m / 100), pad2 (m % 100)] := by
    unfold decimal2Chars
    rw [splitCharAux_mid '.' (pad2 (m % 100)) (natToChars (m / 100)) []
      (fun c hc => ne_of_digit_toNat (hallA c hc) (by decide))]
    rw [splitCharAux_no_sep '.' (pad2 (m % 100)) []
      (fun c hc => ne_of_digit_toNat (hallB c hc) (by decide))]
    simp
  unfold parseFloatChars
  rw [hshape]
  simp only [hsign '-' (by decide), hsign '+' (by decide), Bool.false_eq_true, if_false]
  rw [← hshape, hsplit]
  have hcondA : (natToChars (m / 100)).all isDigitChar = true := by
    rw [List.all_eq_true]
    exact hallA
  have hcondB : (pad2 (m % 100)).all isDigitChar = true := by
    rw [List.all_eq_true]
    exact hallB
  simp only [hneA, hcondA, hcondB, true_and, and_true, ne_eq, not_false_iff, true_or, if_true]
  rw [digitsVal_append, hvalA, hvalB, hlenB]
  congr 2
  push_cast
  omega

/-- Facts about the seven supported currency codes used in the round-trip
proof: as strings they are nonempty, whitespace-free, and fixed points of
`normalize_currency_token`. -/
theorem currency_code_facts : ∀ c ∈ SUPPORTED_CURRENCIES,
    c.data ≠ [] ∧ (∀ ch ∈ c.data, isWsChar ch = false) ∧
    (c.data.getLast?.all fun ch => !isWsChar ch) = true ∧
    normalize_currency_token c = c ∧ SUPPORTED_CURRENCIES.contains c = true := by
  decide

theorem unpack_pack (a : PyFloat) (c : String) (hnn : 0 ≤ a.cents2)
    (hc : c ∈ SUPPORTED_CURRENCIES) :
    unpack_price (pack_price a c) = some (⟨a.cents2, 2⟩, c) := by
  obtain ⟨hcne, hcws, hclast, hcnorm, hccont⟩ := currency_code_facts c hc
  obtain ⟨hd, tl, hshape, hhd⟩ := decimal2Chars_head_digit a.cents2.toNat
  have hnlt : ¬ (a.cents2 < 0) := not_lt.mpr hnn
  have hpack : pack_price a c = String.mk (decimal2Chars a.cents2.toNat ++ ' ' :: c.data) := by
    unfold pack_price formatFixed2
    rw [if_neg hnlt]
  rw [hpack]
  unfold unpack_price
  have hne : String.mk (decimal2Chars a.cents2.toNat ++ ' ' :: c.data) ≠ "" := by
    rw [hshape]
    intro h
    have h2 := congrArg String.data h
    simp at h2
  rw [if_neg hne]
  have hstrip : pyStrip (String.mk (decimal2Chars a.cents2.toNat ++ ' ' :: c.data)) =
      String.mk (decimal2Chars a.cents2.toNat ++ ' ' :: c.data) := by
    unfold pyStrip
    congr 1
    apply stripChars_eq_self
    · intro ch hch
      rw [hshape] at hch
      simp only [List.cons_append, List.head?_cons, Option.some_inj] at hch
      rw [← hch]
      exact not_ws_of_digit hhd
    · intro ch hch
      rw [List.getLast?_append] at hch
      cases hcd : c.data with
      | nil => exact absurd hcd hcne
      | cons x xs =>
        rw [hcd, List.getLast?_cons_cons] at hch
        cases hgl : (x :: xs).getLast? with
        | none =>
          rw [List.getLast?_eq_none_iff] at hgl
          simp at hgl
        | some y =>
          rw [hgl] at hch
          simp only [Option.or_some, Option.some_inj] at hch
          rw [hcd, hgl] at hclast
          simp only [Option.all_some] at hclast
          rw [← hch]
          simpa using hclast
  rw [hstrip]
  have hsplit : pySplitWs (String.mk (decimal2Chars a.cents2.toNat ++ ' ' :: c.data)) =
      [String.mk (decimal2Chars a.cents2.toNat), String.mk c.data] := by
    unfold pySplitWs
    have h1 := splitWsAux_append c.data (decimal2Chars a.cents2.toNat) []
      (decimal2Chars_not_ws a.cents2.toNat)
    have h2 := splitWsAux_all c.data [] (fun ch hch => hcws ch hch)
    simp only [List.reverse_nil, List.nil_append] at h1 h2
    have hdne : decimal2Chars a.cents2.toNat ≠ [] := by
      rw [hshape]; simp
    rw [show (String.mk (decimal2Chars a.cents2.toNat ++ ' ' :: c.data)).data =
      decimal2Chars a.cents2.toNat ++ ' ' :: c.data from rfl]
    rw [h1, h2]
    simp [hdne, hcne]
  rw [hsplit]
  have hfloat : pyFloat (String.mk (decimal2Chars a.cents2.toNat)) =
      some ⟨(a.cents2.toNat : Int), 2⟩ := parseFloatChars_decimal a.cents2.toNat
  have hmkc : String.mk c.data = c := rfl
  simp only [hfloat, hmkc, hcnorm, hccont, if_true]
  rw [Int.toNat_of_nonneg hnn]

/-- C7. The price codec round-trips: for every positive amount up to
MAX_PRICE and every supported currency, `unpack_price (pack_price a c)`
never fails, returns the currency unchanged, and returns the amount
rounded to 2 decimals (half to even); the returned amount differs from the
original by at most half a cent. -/
theorem pack_unpack_round_trip (a : PyFloat) (c : String)
    (h1 : 0 < a.toRat) (_h2 : a.toRat ≤ 1000000) (hc : c ∈ SUPPORTED_CURRENCIES) :
    unpack_price (pack_price a c) = some (⟨a.cents2, 2⟩, c) ∧
    |PyFloat.toRat ⟨a.cents2, 2⟩ - a.toRat| ≤ 1 / 200 := by
  have hds : (0 : ℚ) < (10 : ℚ) ^ a.scale := by positivity
  have hnq : (0 : ℚ) < (a.num : ℚ) := by
    have hmul := mul_pos h1 hds
    rw [PyFloat.toRat, div_mul_cancel₀] at hmul
    · exact hmul
    · exact ne_of_gt hds
  have hn : 0 < a.num := by exact_mod_cast hnq
  have hdi : (0 : Int) < (10 : Int) ^ a.scale := by positivity
  have hcents : 0 ≤ a.cents2 :=
    rheDiv_nonneg (mul_nonneg (le_of_lt hn) (by norm_num)) hdi
  refine ⟨unpack_pack a c hcents hc, ?_⟩
  have key : |(a.cents2 : ℚ) - 100 * a.toRat| ≤ 1 / 2 := by
    have hcl := @rheDiv_close (a.num * 100) ((10 : Int) ^ a.scale) hdi
    unfold PyFloat.cents2 at hcl ⊢
    unfold PyFloat.toRat
    push_cast at hcl ⊢
    rw [show (100 : ℚ) * ((a.num : ℚ) / (10 : ℚ) ^ a.scale) =
      ((a.num : ℚ) * 100) / (10 : ℚ) ^ a.scale from by ring]
    exact hcl
  have ht2 : PyFloat.toRat ⟨a.cents2, 2⟩ = (a.cents2 : ℚ) / 100 := by
    unfold PyFloat.toRat
    norm_num
  rw [ht2]
  have habs : (a.cents2 : ℚ) / 100 - a.toRat = ((a.cents2 : ℚ) - 100 * a.toRat) / 100 := by
    ring
  rw [habs, abs_div, abs_of_pos (show (0 : ℚ) < 100 by norm_num)]
  linarith [key]

/-- Witness for C7 at `a = 129`, `c = "NOK"`: the packed string unpacks to
12900 cents with the same currency. -/
theorem pack_unpack_round_trip_witness :
    (unpack_price (pack_price ⟨129, 0⟩ ("NOK")) =
      some (⟨PyFloat.cents2 ⟨129, 0⟩, 2⟩, "NOK") ∧
     |PyFloat.toRat ⟨PyFloat.cents2 ⟨129, 0⟩, 2⟩ - PyFloat.toRat ⟨129, 0⟩| ≤ 1 / 200) ∧
    PyFloat.cents2 ⟨129, 0⟩ = 12900 :=
  ⟨pack_unpack_round_trip ⟨129, 0⟩ ("NOK") (by norm_num [PyFloat.toRat])
    (by norm_num [PyFloat.toRat]) (by decide), by decide⟩
